import Mathlib

/-!
Verification of the DF-World XML import pipeline (`build.py`).

The development shallowly embeds the pieces of `build.py` that the
specification describes: the flattener `xml_to_dict`, the sanitizer
`sanitize_xml_file`, the per-record-type importers, and the orchestration
of `run_import`.  Flattened records are modelled by the mutual inductive
`FVal` / `Fields` / `FList` (Python values that are strings, dicts in
insertion order, or lists), XML subtrees by `Xml` / `XmlList`.
-/

/-! ## Flattened values (Python str / dict / list) -/

mutual
inductive FVal where
  | text : String → FVal
  | node : Fields → FVal
  | many : FList → FVal
inductive Fields where
  | nil : Fields
  | cons : String → FVal → Fields → Fields
inductive FList where
  | nil : FList
  | cons : FVal → FList → FList
end

mutual
def FVal.beq : FVal → FVal → Bool
  | .text a, .text b => a == b
  | .node a, .node b => Fields.beq a b
  | .many a, .many b => FList.beq a b
  | _, _ => false
def Fields.beq : Fields → Fields → Bool
  | .nil, .nil => true
  | .cons k v r, .cons k2 v2 r2 => k == k2 && FVal.beq v v2 && Fields.beq r r2
  | _, _ => false
def FList.beq : FList → FList → Bool
  | .nil, .nil => true
  | .cons v r, .cons v2 r2 => FVal.beq v v2 && FList.beq r r2
  | _, _ => false
end

mutual
theorem fvalBeq_iff : ∀ a b : FVal, FVal.beq a b = true ↔ a = b
  | .text a, .text b => by simp [FVal.beq]
  | .node a, .node b => by simp [FVal.beq, fieldsBeq_iff a b]
  | .many a, .many b => by simp [FVal.beq, flistBeq_iff a b]
  | .text _, .node _ => by simp [FVal.beq]
  | .text _, .many _ => by simp [FVal.beq]
  | .node _, .text _ => by simp [FVal.beq]
  | .node _, .many _ => by simp [FVal.beq]
  | .many _, .text _ => by simp [FVal.beq]
  | .many _, .node _ => by simp [FVal.beq]
theorem fieldsBeq_iff : ∀ a b : Fields, Fields.beq a b = true ↔ a = b
  | .nil, .nil => by simp [Fields.beq]
  | .cons k v r, .cons k2 v2 r2 => by
      simp [Fields.beq, fvalBeq_iff v v2, fieldsBeq_iff r r2, and_assoc]
  | .nil, .cons _ _ _ => by simp [Fields.beq]
  | .cons _ _ _, .nil => by simp [Fields.beq]
theorem flistBeq_iff : ∀ a b : FList, FList.beq a b = true ↔ a = b
  | .nil, .nil => by simp [FList.beq]
  | .cons v r, .cons v2 r2 => by
      simp [FList.beq, fvalBeq_iff v v2, flistBeq_iff r r2]
  | .nil, .cons _ _ => by simp [FList.beq]
  | .cons _ _, .nil => by simp [FList.beq]
end

instance : DecidableEq FVal := fun a b => decidable_of_iff _ (fvalBeq_iff a b)
instance : DecidableEq Fields := fun a b => decidable_of_iff _ (fieldsBeq_iff a b)
instance : DecidableEq FList := fun a b => decidable_of_iff _ (flistBeq_iff a b)

def FList.append : FList → FList → FList
  | .nil, b => b
  | .cons v r, b => .cons v (r.append b)

theorem FList.append_assoc : ∀ a b c : FList, (a.append b).append c = a.append (b.append c)
  | .nil, _, _ => by simp [FList.append]
  | .cons v r, b, c => by simp [FList.append, FList.append_assoc r b c]

def FList.toList : FList → List FVal
  | .nil => []
  | .cons v r => v :: r.toList

def Fields.toList : Fields → List (String × FVal)
  | .nil => []
  | .cons k v r => (k, v) :: r.toList

/-- Lookup of a key in a flattened dict (first match; keys produced by the
flattener are unique). -/
def lookupF : String → Fields → Option FVal
  | _, .nil => none
  | t, .cons k v r => if k = t then some v else lookupF t r

/-- `tag in result` test of `xml_to_dict`. -/
def hasKey (t : String) : Fields → Bool
  | .nil => false
  | .cons k _ r => k == t || hasKey t r

/-! ## XML subtrees -/

mutual
inductive Xml where
  | elem : String → Option String → XmlList → Xml
inductive XmlList where
  | nil : XmlList
  | cons : Xml → XmlList → XmlList
end

/-! ## `xml_to_dict` (build.py lines 74-96) -/

/-- The in-place update `result[tag].append(value)` (wrapping a scalar into
a list the first time a duplicate tag is seen):
`if not isinstance(result[tag], list): result[tag] = [result[tag]]` then
`result[tag].append(value)`. -/
def pushVal (w v : FVal) : FVal :=
  match w with
  | FVal.many vs => FVal.many (vs.append (FList.cons v FList.nil))
  | old => FVal.many (FList.cons old (FList.cons v FList.nil))

/-- Update the existing entry for `tag` (Python dicts keep the key at its
original position on assignment). -/
def updF (tag : String) (v : FVal) : Fields → Fields
  | .nil => .nil
  | .cons k w rest =>
      if k = tag then Fields.cons tag (pushVal w v) (updF tag v rest)
      else Fields.cons k w (updF tag v rest)

/-- Append a fresh key at the end (Python dict insertion order). -/
def appF (tag : String) (v : FVal) : Fields → Fields
  | .nil => .cons tag v .nil
  | .cons k w rest => .cons k w (appF tag v rest)

/-- One iteration of the `for child in element` loop of `xml_to_dict`:
either promote the existing entry to a list and append, or record a new
key. -/
def addChild (r : Fields) (tag : String) (v : FVal) : Fields :=
  if hasKey tag r then updF tag v r else appF tag v r

mutual
/-- `xml_to_dict(element)`: fold the children into a dict. -/
def xmlToDict : Xml → Fields
  | .elem _ _ cs => flattenChildren cs .nil
/-- The `for child in element` loop, carrying the `result` accumulator.
A child with children recurses; a leaf child contributes
`child.text or ''`. -/
def flattenChildren : XmlList → Fields → Fields
  | .nil, r => r
  | .cons (Xml.elem t tx cs) rest, r =>
      flattenChildren rest (addChild r t (match cs with
        | XmlList.nil => FVal.text (tx.getD "")
        | XmlList.cons _ _ => FVal.node (flattenChildren cs .nil)))
end

/-! ### Specification-side view of the flattening rule (claim C1) -/

/-- The per-occurrence value the claim assigns to one child: a nested
flattened structure when the child has children, otherwise its text
content with `''` for absent text. -/
def childValue : Xml → FVal
  | Xml.elem _ tx XmlList.nil => FVal.text (tx.getD "")
  | Xml.elem t tx (XmlList.cons c cs) => FVal.node (xmlToDict (Xml.elem t tx (XmlList.cons c cs)))

/-- Per-occurrence values of all children with tag `t`, in document
order. -/
def collect (t : String) : XmlList → FList
  | XmlList.nil => FList.nil
  | XmlList.cons (Xml.elem k tx ks) rest =>
      if k = t then FList.cons (childValue (Xml.elem k tx ks)) (collect t rest)
      else collect t rest

/-- The claim's list-promotion rule: no occurrence yields no key, a single
occurrence stays a scalar, two or more become the ordered list. -/
def promote : FList → Option FVal
  | FList.nil => none
  | FList.cons v FList.nil => some v
  | FList.cons v (FList.cons w ws) => some (FVal.many (FList.cons v (FList.cons w ws)))

/-- How an already-accumulated entry combines with the remaining
occurrences. -/
def mergeOcc : Option FVal → FList → Option FVal
  | none, ws => promote ws
  | some v, FList.nil => some v
  | some (FVal.many vs), FList.cons w ws => some (FVal.many (vs.append (FList.cons w ws)))
  | some v, FList.cons w ws => some (FVal.many (FList.cons v (FList.cons w ws)))

def notMany : FVal → Bool
  | FVal.many _ => false
  | _ => true

def noManyIn : FList → Bool
  | FList.nil => true
  | FList.cons v r => notMany v && noManyIn r

theorem childValue_notMany (c : Xml) : notMany (childValue c) = true := by
  match c with
  | Xml.elem t tx XmlList.nil => simp [childValue, notMany]
  | Xml.elem t tx (XmlList.cons _ _) => simp [childValue, notMany]

theorem collect_noMany (t : String) : ∀ cs : XmlList, noManyIn (collect t cs) = true
  | XmlList.nil => by simp [collect, noManyIn]
  | XmlList.cons (Xml.elem k tx ks) rest => by
      by_cases hk : k = t
      · simp [collect, hk, noManyIn, childValue_notMany, collect_noMany t rest]
      · simp [collect, hk, collect_noMany t rest]

theorem hasKey_isSome (t : String) : ∀ r : Fields, hasKey t r = (lookupF t r).isSome
  | Fields.nil => by simp [hasKey, lookupF]
  | Fields.cons k v rest => by
      by_cases hk : k = t
      · simp [hasKey, lookupF, hk]
      · simp [hasKey, lookupF, hk, hasKey_isSome t rest]

theorem lookup_appF_ne (s t : String) (v : FVal) (hst : s ≠ t) :
    ∀ r : Fields, lookupF t (appF s v r) = lookupF t r
  | Fields.nil => by simp [appF, lookupF, hst]
  | Fields.cons k w rest => by
      by_cases hk : k = t
      · simp [appF, lookupF, hk]
      · simp [appF, lookupF, hk, lookup_appF_ne s t v hst rest]

theorem lookup_appF_self (s : String) (v : FVal) :
    ∀ r : Fields, lookupF s r = none → lookupF s (appF s v r) = some v
  | Fields.nil, _ => by simp [appF, lookupF]
  | Fields.cons k w rest, h => by
      by_cases hk : k = s
      · simp [lookupF, hk] at h
      · simp [lookupF, hk] at h
        simp [appF, lookupF, hk, lookup_appF_self s v rest h]

theorem lookup_updF_ne (s t : String) (v : FVal) (hst : s ≠ t) :
    ∀ r : Fields, lookupF t (updF s v r) = lookupF t r
  | Fields.nil => by simp [updF, lookupF]
  | Fields.cons k w rest => by
      by_cases hk : k = s
      · simp [updF, lookupF, hk, hst, lookup_updF_ne s t v hst rest]
      · by_cases hkt : k = t
        · simp [updF, lookupF, hk, hkt, Ne.symm hst]
        · simp [updF, lookupF, hk, hkt, lookup_updF_ne s t v hst rest]

theorem lookup_updF_self (s : String) (v : FVal) :
    ∀ r : Fields, lookupF s (updF s v r) = (lookupF s r).map (fun w => pushVal w v)
  | Fields.nil => by simp [updF, lookupF]
  | Fields.cons k w rest => by
      by_cases hk : k = s
      · subst hk
        simp [updF, lookupF]
      · simp [updF, lookupF, hk, lookup_updF_self s v rest]

/-- Lookup after one loop iteration of `xml_to_dict`. -/
theorem lookup_addChild (r : Fields) (s t : String) (v : FVal) :
    lookupF t (addChild r s v) =
      if s = t then
        some (match lookupF s r with
              | none => v
              | some w => pushVal w v)
      else lookupF t r := by
  by_cases hst : s = t
  · subst hst
    unfold addChild
    rw [hasKey_isSome]
    cases hl : lookupF s r with
    | none => simp [lookup_appF_self s v r hl]
    | some w => simp [lookup_updF_self, hl]
  · unfold addChild
    cases hk : hasKey s r
    · simp [hst, lookup_appF_ne s t v hst r]
    · simp [hst, lookup_updF_ne s t v hst r]

theorem mergeOcc_push (o : Option FVal) (v : FVal) (ws : FList) (hv : notMany v = true) :
    mergeOcc (some (match o with
                    | none => v
                    | some w => pushVal w v)) ws =
      mergeOcc o (FList.cons v ws) := by
  cases o with
  | none =>
      cases ws with
      | nil => cases v <;> simp [mergeOcc, promote]
      | cons w ws' => cases v <;> simp_all [mergeOcc, promote, notMany]
  | some w =>
      cases w with
      | text s =>
          cases ws with
          | nil => simp [mergeOcc, pushVal]
          | cons w' ws' => simp [mergeOcc, pushVal, FList.append]
      | node f =>
          cases ws with
          | nil => simp [mergeOcc, pushVal]
          | cons w' ws' => simp [mergeOcc, pushVal, FList.append]
      | many vs =>
          cases ws with
          | nil => simp [mergeOcc, pushVal]
          | cons w' ws' =>
              simp [mergeOcc, pushVal, FList.append_assoc, FList.append]

/-- Invariant of the `xml_to_dict` loop: the entry for `t` after folding
the remaining children equals the accumulated entry merged with the
remaining occurrences of `t`. -/
theorem lookup_flattenChildren (t : String) :
    ∀ (cs : XmlList) (r : Fields),
      lookupF t (flattenChildren cs r) = mergeOcc (lookupF t r) (collect t cs)
  | XmlList.nil, r => by
      cases hl : lookupF t r <;> simp [flattenChildren, collect, mergeOcc, promote, hl]
  | XmlList.cons (Xml.elem k tx ks) rest, r => by
      have hcv : notMany (childValue (Xml.elem k tx ks)) = true := childValue_notMany _
      cases ks with
      | nil =>
          rw [show flattenChildren (XmlList.cons (Xml.elem k tx XmlList.nil) rest) r =
                flattenChildren rest (addChild r k (FVal.text (tx.getD ""))) from rfl]
          rw [lookup_flattenChildren t rest]
          rw [lookup_addChild]
          by_cases hk : k = t
          · subst hk
            rw [if_pos rfl]
            rw [show collect k (XmlList.cons (Xml.elem k tx XmlList.nil) rest) =
                  FList.cons (childValue (Xml.elem k tx XmlList.nil)) (collect k rest) from by
              simp [collect]]
            exact mergeOcc_push (lookupF k r) (childValue (Xml.elem k tx XmlList.nil))
              (collect k rest) hcv
          · simp [hk, collect]
      | cons c cs' =>
          rw [show flattenChildren (XmlList.cons (Xml.elem k tx (XmlList.cons c cs')) rest) r =
                flattenChildren rest
                  (addChild r k (FVal.node (flattenChildren (XmlList.cons c cs') Fields.nil))) from rfl]
          rw [lookup_flattenChildren t rest]
          rw [lookup_addChild]
          by_cases hk : k = t
          · subst hk
            rw [if_pos rfl]
            rw [show collect k (XmlList.cons (Xml.elem k tx (XmlList.cons c cs')) rest) =
                  FList.cons (childValue (Xml.elem k tx (XmlList.cons c cs'))) (collect k rest) from by
              simp [collect]]
            exact mergeOcc_push (lookupF k r) (childValue (Xml.elem k tx (XmlList.cons c cs')))
              (collect k rest) hcv
          · simp [hk, collect]

theorem lookup_xmlToDict (n : String) (tx : Option String) (cs : XmlList) (t : String) :
    lookupF t (xmlToDict (Xml.elem n tx cs)) = promote (collect t cs) := by
  rw [show xmlToDict (Xml.elem n tx cs) = flattenChildren cs Fields.nil from rfl]
  rw [lookup_flattenChildren t cs Fields.nil]
  rfl

/-- **C1.** For every element, the flattener maps each immediate child tag
to a key: a child with children becomes a nested flattened structure, a
leaf child becomes its text content (the empty string when the text is
absent); a tag occurring exactly once among the siblings is a scalar, and
a tag occurring two or more times is the ordered list of the
per-occurrence values in document order.  Formally: the entry of
`xml_to_dict` at any tag `t` is exactly the list-promotion `promote` of
the per-occurrence values `collect t cs` taken in document order (and the
key is absent exactly when no child has tag `t`). -/
theorem flattener_list_promotion (n : String) (tx : Option String) (cs : XmlList) (t : String) :
    lookupF t (xmlToDict (Xml.elem n tx cs)) = promote (collect t cs) :=
  lookup_xmlToDict n tx cs t

/-! ## Sanitizer (`sanitize_xml_file`, build.py lines 40-71)

The input file is read in chunks; each chunk is decoded from CP437
(`errors='replace'` never fires: every byte is defined in CP437), the
characters matching `[\x00-\x08\x0b\x0c\x0e-\x1f]` are removed, and in
the first chunk only, `encoding=["']CP437["']` (case-insensitive) is
rewritten to `encoding="UTF-8"`.  We model the byte level (CP437 decode
table reproduced below) and quantify over arbitrary chunkings, which
subsumes the fixed 1 MB chunking of the code. -/

/-- The regex `[\x00-\x08\x0b\x0c\x0e-\x1f]` of invalid XML 1.0
characters: control characters other than tab, LF and CR. -/
def isInvalidXmlChar (c : Char) : Bool :=
  (c.toNat ≤ 8) || c.toNat == 11 || c.toNat == 12 || (14 ≤ c.toNat && c.toNat ≤ 31)

/-- `invalid_chars.sub('', text)`. -/
def removeInvalid (s : List Char) : List Char :=
  s.filter (fun c => !(isInvalidXmlChar c))

/-- Case-insensitive single-letter match (`re.IGNORECASE`). -/
def ieq (c lo up : Char) : Bool := c == lo || c == up

/-- A quote as matched by `["']`. -/
def isQuote (c : Char) : Bool := c == '"' || c == Char.ofNat 39

/-- Whether the regex `encoding=["']CP437["']` (with `re.IGNORECASE`)
matches at the head of the character list.  The pattern has fixed
length 16. -/
def matchesDecl : List Char → Bool
  | x0 :: x1 :: x2 :: x3 :: x4 :: x5 :: x6 :: x7 :: x8 :: x9 :: x10 :: x11 :: x12 :: x13 :: x14 :: x15 :: _ =>
      ieq x0 'e' 'E' && ieq x1 'n' 'N' && ieq x2 'c' 'C' && ieq x3 'o' 'O' &&
      ieq x4 'd' 'D' && ieq x5 'i' 'I' && ieq x6 'n' 'N' && ieq x7 'g' 'G' &&
      x8 == '=' && isQuote x9 &&
      ieq x10 'c' 'C' && ieq x11 'p' 'P' && x12 == '4' && x13 == '3' && x14 == '7' &&
      isQuote x15
  | _ => false

/-- The replacement text `encoding="UTF-8"`. -/
def replChars : List Char := "encoding=\"UTF-8\"".toList

/-- `encoding_pattern.sub('encoding="UTF-8"', text)`: leftmost,
non-overlapping scan; on a match the 16 matched characters are replaced
and scanning resumes after them (the first argument counts characters
still to skip from a previous match). -/
def subEncodingAux : Nat → List Char → List Char
  | _, [] => []
  | 0, c :: rest =>
      if matchesDecl (c :: rest) then replChars ++ subEncodingAux 15 rest
      else c :: subEncodingAux 0 rest
  | k + 1, _ :: rest => subEncodingAux k rest

def subEncoding (s : List Char) : List Char := subEncodingAux 0 s

/-- Processing of one chunk: remove invalid characters, and apply the
encoding-declaration rewrite when this is the first chunk. -/
def sanitizeChunk (first : Bool) (chunk : List Char) : List Char :=
  let t := removeInvalid chunk
  if first then subEncoding t else t

/-- The chunk loop of `sanitize_xml_file`, carrying the `first_chunk`
flag. -/
def sanitizeLoop : Bool → List (List Char) → List Char
  | _, [] => []
  | first, c :: rest => sanitizeChunk first c ++ sanitizeLoop false rest

/-- The whole sanitizer at the decoded-text level. -/
def sanitizeText (chunks : List (List Char)) : List Char := sanitizeLoop true chunks

/-- CP437 code points of bytes `0x80`-`0xFF` (bytes `0x00`-`0x7F` decode
to themselves). -/
def cp437High : List Nat :=
  [199, 252, 233, 226, 228, 224, 229, 231, 234, 235, 232, 239, 238, 236, 196, 197,
   201, 230, 198, 244, 246, 242, 251, 249, 255, 214, 220, 162, 163, 165, 8359, 402,
   225, 237, 243, 250, 241, 209, 170, 186, 191, 8976, 172, 189, 188, 161, 171, 187,
   9617, 9618, 9619, 9474, 9508, 9569, 9570, 9558, 9557, 9571, 9553, 9559, 9565, 9564,
   9563, 9488, 9492, 9524, 9516, 9500, 9472, 9532, 9566, 9567, 9562, 9556, 9577, 9574,
   9568, 9552, 9580, 9575, 9576, 9572, 9573, 9561, 9560, 9554, 9555, 9579, 9578, 9496,
   9484, 9608, 9604, 9612, 9616, 9600, 945, 223, 915, 960, 931, 963, 181, 964, 934,
   920, 937, 948, 8734, 966, 949, 8745, 8801, 177, 8805, 8804, 8992, 8993, 247, 8776,
   176, 8729, 183, 8730, 8319, 178, 9632, 160]

/-- `chunk.decode('cp437')`, one byte. -/
def cp437Decode (b : Nat) : Char :=
  if b < 128 then Char.ofNat b else Char.ofNat (cp437High.getD (b - 128) 0)

/-- The whole sanitizer from the raw byte stream, for an arbitrary
chunking of the input. -/
def sanitizeBytes (chunks : List (List Nat)) : List Char :=
  sanitizeText (chunks.map (fun ch => ch.map cp437Decode))

theorem mem_subEncodingAux (c : Char) :
    ∀ (k : Nat) (s : List Char), c ∈ subEncodingAux k s → c ∈ s ∨ c ∈ replChars
  | _, [], h => by simp [subEncodingAux] at h
  | 0, x :: rest, h => by
      by_cases hm : matchesDecl (x :: rest) = true
      · rw [subEncodingAux, if_pos hm] at h
        rcases List.mem_append.mp h with h1 | h1
        · exact Or.inr h1
        · rcases mem_subEncodingAux c 15 rest h1 with h2 | h2
          · exact Or.inl (List.mem_cons_of_mem _ h2)
          · exact Or.inr h2
      · rw [subEncodingAux, if_neg hm] at h
        rcases List.mem_cons.mp h with h1 | h1
        · exact Or.inl (h1 ▸ List.mem_cons_self _ _)
        · rcases mem_subEncodingAux c 0 rest h1 with h2 | h2
          · exact Or.inl (List.mem_cons_of_mem _ h2)
          · exact Or.inr h2
  | k + 1, _ :: rest, h => by
      rcases mem_subEncodingAux c k rest h with h2 | h2
      · exact Or.inl (List.mem_cons_of_mem _ h2)
      · exact Or.inr h2

theorem mem_removeInvalid {c : Char} {s : List Char} (h : c ∈ removeInvalid s) :
    isInvalidXmlChar c = false := by
  have := List.of_mem_filter h
  simpa using this

theorem replChars_valid {c : Char} (h : c ∈ replChars) : isInvalidXmlChar c = false := by
  fin_cases h <;> decide

theorem mem_sanitizeChunk {c : Char} {first : Bool} {ch : List Char}
    (h : c ∈ sanitizeChunk first ch) : isInvalidXmlChar c = false := by
  unfold sanitizeChunk at h
  cases first with
  | false => exact mem_removeInvalid (by simpa using h)
  | true =>
      simp only [if_pos] at h
      rcases mem_subEncodingAux c 0 (removeInvalid ch) h with h1 | h1
      · exact mem_removeInvalid h1
      · exact replChars_valid h1

theorem mem_sanitizeLoop {c : Char} :
    ∀ (first : Bool) (chunks : List (List Char)), c ∈ sanitizeLoop first chunks →
      isInvalidXmlChar c = false
  | _, [], h => by simp [sanitizeLoop] at h
  | first, ch :: rest, h => by
      rw [sanitizeLoop] at h
      rcases List.mem_append.mp h with h1 | h1
      · exact mem_sanitizeChunk h1
      · exact mem_sanitizeLoop false rest h1

/-- **C2.** For every input byte stream (under any chunking) no character
of the disallowed control-character set `U+0000`-`U+0008`, `U+000B`,
`U+000C`, `U+000E`-`U+001F` appears in the sanitizer's output. -/
theorem sanitizer_no_control_chars (chunks : List (List Nat)) (c : Char)
    (h : c ∈ sanitizeBytes chunks) : isInvalidXmlChar c = false :=
  mem_sanitizeLoop true _ h

/-- Witness for C2 at a concrete input: the byte `0x00` is dropped and
the surviving characters are legal. -/
theorem sanitizer_no_control_chars_witness :
    isInvalidXmlChar 'H' = false :=
  sanitizer_no_control_chars [[72, 0, 10]] 'H' (by decide)

/-! ### The encoding-declaration rewrite (claim C3) -/

def startsWithChars : List Char → List Char → Bool
  | [], _ => true
  | _ :: _, [] => false
  | p :: ps, c :: cs => p == c && startsWithChars ps cs

/-- Number of positions at which `pat` occurs in `s` (overlaps counted;
the patterns used below cannot overlap themselves). -/
def countOcc (pat : List Char) : List Char → Nat
  | [] => 0
  | c :: rest => (if startsWithChars pat (c :: rest) then 1 else 0) + countOcc pat rest

/-- A first chunk containing the legacy declaration twice. -/
def cexFirstChunk : List Char :=
  "<?xml version=\"1.0\" encoding=\"CP437\"?><a>encoding=\"CP437\"</a>".toList

/-- **C3 (counterexample).** The claim says the rewrite is applied
exactly once and no other occurrence of the legacy declaration substring
is altered.  On an input whose first chunk contains the declaration
pattern twice, the code rewrites both occurrences: the second occurrence
does not survive, and the replacement appears twice. -/
theorem sanitizer_encoding_rewrite_counterexample :
    countOcc ("encoding=\"CP437\"".toList) cexFirstChunk = 2 ∧
    countOcc ("encoding=\"CP437\"".toList) (sanitizeText [cexFirstChunk]) = 0 ∧
    countOcc replChars (sanitizeText [cexFirstChunk]) = 2 := by decide

/-- No position of `s` starts a match of the encoding pattern. -/
def noDecl : List Char → Bool
  | [] => true
  | c :: rest => !matchesDecl (c :: rest) && noDecl rest

theorem subEncodingAux_noDecl : ∀ s : List Char, noDecl s = true → subEncodingAux 0 s = s
  | [], _ => rfl
  | c :: rest, h => by
      rw [noDecl, Bool.and_eq_true, Bool.not_eq_true'] at h
      rw [subEncodingAux, if_neg (by simp [h.1]), subEncodingAux_noDecl rest h.2]

theorem sanitizeLoop_false : ∀ chunks : List (List Char),
    sanitizeLoop false chunks = (chunks.map removeInvalid).flatten
  | [] => rfl
  | ch :: rest => by
      rw [sanitizeLoop, sanitizeLoop_false rest]
      simp [sanitizeChunk]

/-- **C3 (amended).** For an input whose first chunk starts with the
legacy-encoding declaration (any letter casing, any of the accepted
quote characters) and contains no further occurrence of the declaration
pattern, the sanitizer's output first chunk carries the universal
`encoding="UTF-8"` declaration exactly where the legacy one stood, the
rest of the document is altered only by control-character removal, and
later chunks are never subject to the rewrite. -/
theorem sanitizer_encoding_rewrite_amended
    (x0 x1 x2 x3 x4 x5 x6 x7 x8 x9 x10 x11 x12 x13 x14 x15 : Char)
    (post : List Char) (rest : List (List Char))
    (hm : matchesDecl (x0 :: x1 :: x2 :: x3 :: x4 :: x5 :: x6 :: x7 :: x8 :: x9 ::
            x10 :: x11 :: x12 :: x13 :: x14 :: x15 :: post) = true)
    (hpost : noDecl (removeInvalid post) = true) :
    sanitizeText ((x0 :: x1 :: x2 :: x3 :: x4 :: x5 :: x6 :: x7 :: x8 :: x9 ::
        x10 :: x11 :: x12 :: x13 :: x14 :: x15 :: post) :: rest) =
      replChars ++ removeInvalid post ++ (rest.map removeInvalid).flatten := by
  have hm' := hm
  simp only [matchesDecl, ieq, isQuote, Bool.and_eq_true, Bool.or_eq_true, beq_iff_eq,
    and_assoc] at hm'
  obtain ⟨h0, h1, h2, h3, h4, h5, h6, h7, h8, h9, h10, h11, h12, h13, h14, h15⟩ := hm'
  have i0 : isInvalidXmlChar x0 = false := by rcases h0 with rfl | rfl <;> decide
  have i1 : isInvalidXmlChar x1 = false := by rcases h1 with rfl | rfl <;> decide
  have i2 : isInvalidXmlChar x2 = false := by rcases h2 with rfl | rfl <;> decide
  have i3 : isInvalidXmlChar x3 = false := by rcases h3 with rfl | rfl <;> decide
  have i4 : isInvalidXmlChar x4 = false := by rcases h4 with rfl | rfl <;> decide
  have i5 : isInvalidXmlChar x5 = false := by rcases h5 with rfl | rfl <;> decide
  have i6 : isInvalidXmlChar x6 = false := by rcases h6 with rfl | rfl <;> decide
  have i7 : isInvalidXmlChar x7 = false := by rcases h7 with rfl | rfl <;> decide
  have i8 : isInvalidXmlChar x8 = false := by subst h8; decide
  have i9 : isInvalidXmlChar x9 = false := by rcases h9 with rfl | rfl <;> decide
  have i10 : isInvalidXmlChar x10 = false := by rcases h10 with rfl | rfl <;> decide
  have i11 : isInvalidXmlChar x11 = false := by rcases h11 with rfl | rfl <;> decide
  have i12 : isInvalidXmlChar x12 = false := by subst h12; decide
  have i13 : isInvalidXmlChar x13 = false := by subst h13; decide
  have i14 : isInvalidXmlChar x14 = false := by subst h14; decide
  have i15 : isInvalidXmlChar x15 = false := by rcases h15 with rfl | rfl <;> decide
  rw [show sanitizeText ((x0 :: x1 :: x2 :: x3 :: x4 :: x5 :: x6 :: x7 :: x8 :: x9 ::
        x10 :: x11 :: x12 :: x13 :: x14 :: x15 :: post) :: rest) =
      sanitizeChunk true (x0 :: x1 :: x2 :: x3 :: x4 :: x5 :: x6 :: x7 :: x8 :: x9 ::
        x10 :: x11 :: x12 :: x13 :: x14 :: x15 :: post) ++ sanitizeLoop false rest from rfl]
  rw [sanitizeLoop_false rest]
  have hri : removeInvalid (x0 :: x1 :: x2 :: x3 :: x4 :: x5 :: x6 :: x7 :: x8 :: x9 ::
      x10 :: x11 :: x12 :: x13 :: x14 :: x15 :: post) =
      x0 :: x1 :: x2 :: x3 :: x4 :: x5 :: x6 :: x7 :: x8 :: x9 ::
      x10 :: x11 :: x12 :: x13 :: x14 :: x15 :: removeInvalid post := by
    simp [removeInvalid, List.filter_cons, i0, i1, i2, i3, i4, i5, i6, i7, i8, i9, i10,
      i11, i12, i13, i14, i15]
  rw [show sanitizeChunk true (x0 :: x1 :: x2 :: x3 :: x4 :: x5 :: x6 :: x7 :: x8 :: x9 ::
        x10 :: x11 :: x12 :: x13 :: x14 :: x15 :: post) =
      subEncoding (removeInvalid (x0 :: x1 :: x2 :: x3 :: x4 :: x5 :: x6 :: x7 :: x8 :: x9 ::
        x10 :: x11 :: x12 :: x13 :: x14 :: x15 :: post)) from rfl]
  rw [hri]
  have hm2 : matchesDecl (x0 :: x1 :: x2 :: x3 :: x4 :: x5 :: x6 :: x7 :: x8 :: x9 ::
      x10 :: x11 :: x12 :: x13 :: x14 :: x15 :: removeInvalid post) = true := hm
  rw [show subEncoding (x0 :: x1 :: x2 :: x3 :: x4 :: x5 :: x6 :: x7 :: x8 :: x9 ::
        x10 :: x11 :: x12 :: x13 :: x14 :: x15 :: removeInvalid post) =
      subEncodingAux 0 (x0 :: x1 :: x2 :: x3 :: x4 :: x5 :: x6 :: x7 :: x8 :: x9 ::
        x10 :: x11 :: x12 :: x13 :: x14 :: x15 :: removeInvalid post) from rfl]
  rw [subEncodingAux, if_pos hm2]
  rw [show subEncodingAux 15 (x1 :: x2 :: x3 :: x4 :: x5 :: x6 :: x7 :: x8 :: x9 ::
        x10 :: x11 :: x12 :: x13 :: x14 :: x15 :: removeInvalid post) =
      subEncodingAux 0 (removeInvalid post) from by
    simp [subEncodingAux]]
  rw [subEncodingAux_noDecl _ hpost, List.append_assoc]

/-- Witness for the amended C3 at a concrete input: a declaration-only
first chunk followed by one more chunk. -/
theorem sanitizer_encoding_rewrite_amended_witness :
    sanitizeText (('e' :: 'n' :: 'c' :: 'o' :: 'd' :: 'i' :: 'n' :: 'g' :: '=' :: '"' ::
        'C' :: 'P' :: '4' :: '3' :: '7' :: '"' :: "?>".toList) :: ["<b/>".toList]) =
      replChars ++ removeInvalid "?>".toList ++
        (["<b/>".toList].map removeInvalid).flatten :=
  sanitizer_encoding_rewrite_amended 'e' 'n' 'c' 'o' 'd' 'i' 'n' 'g' '=' '"' 'C' 'P' '4' '3' '7' '"'
    "?>".toList ["<b/>".toList] (by decide) (by decide)

/-! ## Record importers (build.py lines 216-461)

A flattened record is a `Fields`; field extraction is `data.get(key)`
(permissive: `none` when absent). -/

/-- `data.get(k)`. -/
def getF (d : Fields) (k : String) : Option FVal := lookupF k d

/-- Python truthiness of a fetched field (`if site_id:`, `a or b`):
`None`, `''`, `{}` and `[]` are falsy. -/
def truthy : Option FVal → Bool
  | none => false
  | some (FVal.text s) => !(s == "")
  | some (FVal.node Fields.nil) => false
  | some (FVal.node (Fields.cons _ _ _)) => true
  | some (FVal.many FList.nil) => false
  | some (FVal.many (FList.cons _ _)) => true

/-- Python `a or b` (used as `data.get('name') or data.get('name_string')`
and similar): the first operand when truthy, else the second. -/
def pyOr (a b : Option FVal) : Option FVal := if truthy a then a else b

structure RegionRow where
  id : Option FVal
  name : Option FVal
  type : Option FVal
deriving DecidableEq

/-- `import_region` (lines 216-220). -/
def regionRowOf (d : Fields) : RegionRow :=
  ⟨getF d "id", getF d "name", getF d "type"⟩

structure UndergroundRegionRow where
  id : Option FVal
  type : Option FVal
  depth : Option FVal
deriving DecidableEq

/-- `import_underground` (lines 227-231). -/
def undergroundRowOf (d : Fields) : UndergroundRegionRow :=
  ⟨getF d "id", getF d "type", getF d "depth"⟩

structure SiteRow where
  id : Option FVal
  name : Option FVal
  type : Option FVal
  coords : Option FVal
  rectangle : Option FVal
  civ_id : Option FVal
  cur_owner_id : Option FVal
deriving DecidableEq

/-- `import_site` (lines 238-242): pass 1 sets only the identity columns;
the ownership columns are left NULL. -/
def siteRowOf (d : Fields) : SiteRow :=
  ⟨getF d "id", getF d "name", getF d "type", getF d "coords", getF d "rectangle", none, none⟩

structure ArtifactRow where
  id : Option FVal
  name : Option FVal
  item_type : Option FVal
  item_subtype : Option FVal
  mat : Option FVal
deriving DecidableEq

/-- `import_artifact` (lines 249-254): `name` is
`data.get('name') or data.get('name_string')`. -/
def artifactRowOf (d : Fields) : ArtifactRow :=
  ⟨getF d "id", pyOr (getF d "name") (getF d "name_string"),
   getF d "item_type", getF d "item_subtype", getF d "mat"⟩

structure EntityRow where
  id : Option FVal
  name : Option FVal
  race : Option FVal
  type : Option FVal
deriving DecidableEq

/-- The entity row of `import_entity` (lines 320-323). -/
def entityRowOf (d : Fields) : EntityRow :=
  ⟨getF d "id", getF d "name", getF d "race", getF d "type"⟩

structure HfRow where
  id : Option FVal
  name : Option FVal
  race : Option FVal
  caste : Option FVal
  sex : Option FVal
  birth_year : Option FVal
  death_year : Option FVal
deriving DecidableEq

/-- The historical-figure row of `import_hf` (lines 358-362). -/
def hfRowOf (d : Fields) : HfRow :=
  ⟨getF d "id", getF d "name", getF d "race", getF d "caste",
   getF d "sex", getF d "birth_year", getF d "death_year"⟩

/-- Modelled from the spec: `schema.sql` is not among the repository's
source files, so the key constraint behind `INSERT OR REPLACE` is taken
from §3 of the spec ("every record id is unique within its table,
enforced via upsert-by-id semantics — later records with the same id
overwrite rather than duplicate").  `INSERT OR REPLACE` is modelled as
deleting any row with the same id and appending the new row.  (SQLite's
treatment of a NULL primary key — a fresh rowid — is outside this model;
the theorems about it assume the record carries an id.) -/
def upsertBy {α : Type} (idOf : α → Option FVal) (tbl : List α) (r : α) : List α :=
  tbl.filter (fun x => !decide (idOf x = idOf r)) ++ [r]

/-- The rows of a table holding a given id. -/
def selectBy {α : Type} (idOf : α → Option FVal) (tbl : List α) (v : Option FVal) : List α :=
  tbl.filter (fun x => decide (idOf x = v))

/-- The last row of the list carrying the given id, if any. -/
def lastWith {α : Type} (idOf : α → Option FVal) (v : Option FVal) : List α → Option α
  | [] => none
  | r :: rs =>
      match lastWith idOf v rs with
      | some x => some x
      | none => if idOf r = v then some r else none

/-- One import pass of each "dimension" table: stream the records and
upsert row-by-row (`stream_elements` + `INSERT OR REPLACE`). -/
def importRegionPass (tbl : List RegionRow) (ds : List Fields) : List RegionRow :=
  ds.foldl (fun t d => upsertBy RegionRow.id t (regionRowOf d)) tbl

def importUndergroundPass (tbl : List UndergroundRegionRow) (ds : List Fields) :
    List UndergroundRegionRow :=
  ds.foldl (fun t d => upsertBy UndergroundRegionRow.id t (undergroundRowOf d)) tbl

def importSitePass (tbl : List SiteRow) (ds : List Fields) : List SiteRow :=
  ds.foldl (fun t d => upsertBy SiteRow.id t (siteRowOf d)) tbl

def importArtifactPass (tbl : List ArtifactRow) (ds : List Fields) : List ArtifactRow :=
  ds.foldl (fun t d => upsertBy ArtifactRow.id t (artifactRowOf d)) tbl

def importEntityPass (tbl : List EntityRow) (ds : List Fields) : List EntityRow :=
  ds.foldl (fun t d => upsertBy EntityRow.id t (entityRowOf d)) tbl

def importHfPass (tbl : List HfRow) (ds : List Fields) : List HfRow :=
  ds.foldl (fun t d => upsertBy HfRow.id t (hfRowOf d)) tbl

theorem selectBy_upsertBy {α : Type} (idOf : α → Option FVal) (t : List α) (r : α)
    (v : Option FVal) :
    selectBy idOf (upsertBy idOf t r) v = if idOf r = v then [r] else selectBy idOf t v := by
  unfold selectBy upsertBy
  rw [List.filter_append]
  by_cases h : idOf r = v
  · rw [if_pos h]
    have h1 : List.filter (fun x => decide (idOf x = v))
        (List.filter (fun x => !decide (idOf x = idOf r)) t) = [] := by
      rw [List.filter_filter]
      apply List.filter_eq_nil_iff.mpr
      intro a _
      by_cases ha : idOf a = v
      · simp [ha, h]
      · simp [ha]
    rw [h1]
    simp [h]
  · rw [if_neg h]
    have h2 : List.filter (fun x => decide (idOf x = v)) [r] = [] := by simp [h]
    rw [h2, List.append_nil, List.filter_filter]
    apply List.filter_congr
    intro a _
    by_cases ha : idOf a = v
    · have hne : idOf a ≠ idOf r := fun hh => h (hh ▸ ha)
      have hvr : ¬v = idOf r := fun hh => h hh.symm
      simp [ha, hne, hvr]
    · simp [ha]

theorem selectBy_foldl {α : Type} (idOf : α → Option FVal) :
    ∀ (rs : List α) (t : List α) (v : Option FVal),
      selectBy idOf (rs.foldl (upsertBy idOf) t) v =
        match lastWith idOf v rs with
        | some r => [r]
        | none => selectBy idOf t v
  | [], t, v => rfl
  | r :: rs, t, v => by
      rw [List.foldl_cons, selectBy_foldl idOf rs (upsertBy idOf t r) v]
      rw [show lastWith idOf v (r :: rs) =
            (match lastWith idOf v rs with
             | some x => some x
             | none => if idOf r = v then some r else none) from rfl]
      cases hlw : lastWith idOf v rs with
      | some x => rfl
      | none => rw [selectBy_upsertBy]; by_cases h : idOf r = v <;> simp [h]

/-- Re-running a dimension pass over the same records leaves every id's
row set unchanged. -/
theorem upsert_rerun {α : Type} (idOf : α → Option FVal) (rows : List α) (t : List α)
    (v : Option FVal) :
    selectBy idOf (rows.foldl (upsertBy idOf) (rows.foldl (upsertBy idOf) t)) v =
      selectBy idOf (rows.foldl (upsertBy idOf) t) v := by
  rw [selectBy_foldl, selectBy_foldl]
  cases hlw : lastWith idOf v rows with
  | some x => rfl
  | none => rfl

theorem pass_rerun {α : Type} (idOf : α → Option FVal) (rowOf : Fields → α)
    (tbl : List α) (ds : List Fields) (v : Option FVal) :
    selectBy idOf (ds.foldl (fun t d => upsertBy idOf t (rowOf d))
        (ds.foldl (fun t d => upsertBy idOf t (rowOf d)) tbl)) v =
      selectBy idOf (ds.foldl (fun t d => upsertBy idOf t (rowOf d)) tbl) v := by
  rw [← List.foldl_map rowOf (upsertBy idOf), ← List.foldl_map rowOf (upsertBy idOf)]
  exact upsert_rerun idOf (ds.map rowOf) tbl v

theorem pass_two_records {α : Type} (idOf : α → Option FVal) (t : List α) (r1 r2 : α) :
    selectBy idOf (upsertBy idOf (upsertBy idOf t r1) r2) (idOf r2) = [r2] := by
  rw [selectBy_upsertBy, if_pos rfl]

/-- **C4.** For every dimension table (regions, underground regions,
sites, artifacts, entities, historical figures): importing two records
with the same id yields exactly one row with that id, whose field values
reflect the later record; and re-running the same import pass over the
same input leaves every id's row set unchanged. -/
theorem dimension_upsert_convergence :
    (∀ (tbl : List RegionRow) (d1 d2 : Fields),
        getF d1 "id" = getF d2 "id" → (getF d2 "id").isSome = true →
        selectBy RegionRow.id (importRegionPass (importRegionPass tbl [d1]) [d2])
            (getF d2 "id") = [regionRowOf d2]) ∧
    (∀ (tbl : List RegionRow) (ds : List Fields) (v : Option FVal),
        selectBy RegionRow.id (importRegionPass (importRegionPass tbl ds) ds) v =
          selectBy RegionRow.id (importRegionPass tbl ds) v) ∧
    (∀ (tbl : List UndergroundRegionRow) (d1 d2 : Fields),
        getF d1 "id" = getF d2 "id" → (getF d2 "id").isSome = true →
        selectBy UndergroundRegionRow.id
            (importUndergroundPass (importUndergroundPass tbl [d1]) [d2])
            (getF d2 "id") = [undergroundRowOf d2]) ∧
    (∀ (tbl : List UndergroundRegionRow) (ds : List Fields) (v : Option FVal),
        selectBy UndergroundRegionRow.id
            (importUndergroundPass (importUndergroundPass tbl ds) ds) v =
          selectBy UndergroundRegionRow.id (importUndergroundPass tbl ds) v) ∧
    (∀ (tbl : List SiteRow) (d1 d2 : Fields),
        getF d1 "id" = getF d2 "id" → (getF d2 "id").isSome = true →
        selectBy SiteRow.id (importSitePass (importSitePass tbl [d1]) [d2])
            (getF d2 "id") = [siteRowOf d2]) ∧
    (∀ (tbl : List SiteRow) (ds : List Fields) (v : Option FVal),
        selectBy SiteRow.id (importSitePass (importSitePass tbl ds) ds) v =
          selectBy SiteRow.id (importSitePass tbl ds) v) ∧
    (∀ (tbl : List ArtifactRow) (d1 d2 : Fields),
        getF d1 "id" = getF d2 "id" → (getF d2 "id").isSome = true →
        selectBy ArtifactRow.id (importArtifactPass (importArtifactPass tbl [d1]) [d2])
            (getF d2 "id") = [artifactRowOf d2]) ∧
    (∀ (tbl : List ArtifactRow) (ds : List Fields) (v : Option FVal),
        selectBy ArtifactRow.id (importArtifactPass (importArtifactPass tbl ds) ds) v =
          selectBy ArtifactRow.id (importArtifactPass tbl ds) v) ∧
    (∀ (tbl : List EntityRow) (d1 d2 : Fields),
        getF d1 "id" = getF d2 "id" → (getF d2 "id").isSome = true →
        selectBy EntityRow.id (importEntityPass (importEntityPass tbl [d1]) [d2])
            (getF d2 "id") = [entityRowOf d2]) ∧
    (∀ (tbl : List EntityRow) (ds : List Fields) (v : Option FVal),
        selectBy EntityRow.id (importEntityPass (importEntityPass tbl ds) ds) v =
          selectBy EntityRow.id (importEntityPass tbl ds) v) ∧
    (∀ (tbl : List HfRow) (d1 d2 : Fields),
        getF d1 "id" = getF d2 "id" → (getF d2 "id").isSome = true →
        selectBy HfRow.id (importHfPass (importHfPass tbl [d1]) [d2])
            (getF d2 "id") = [hfRowOf d2]) ∧
    (∀ (tbl : List HfRow) (ds : List Fields) (v : Option FVal),
        selectBy HfRow.id (importHfPass (importHfPass tbl ds) ds) v =
          selectBy HfRow.id (importHfPass tbl ds) v) :=
  ⟨fun tbl d1 d2 _ _ => pass_two_records RegionRow.id tbl (regionRowOf d1) (regionRowOf d2),
   fun tbl ds v => pass_rerun RegionRow.id regionRowOf tbl ds v,
   fun tbl d1 d2 _ _ =>
     pass_two_records UndergroundRegionRow.id tbl (undergroundRowOf d1) (undergroundRowOf d2),
   fun tbl ds v => pass_rerun UndergroundRegionRow.id undergroundRowOf tbl ds v,
   fun tbl d1 d2 _ _ => pass_two_records SiteRow.id tbl (siteRowOf d1) (siteRowOf d2),
   fun tbl ds v => pass_rerun SiteRow.id siteRowOf tbl ds v,
   fun tbl d1 d2 _ _ => pass_two_records ArtifactRow.id tbl (artifactRowOf d1) (artifactRowOf d2),
   fun tbl ds v => pass_rerun ArtifactRow.id artifactRowOf tbl ds v,
   fun tbl d1 d2 _ _ => pass_two_records EntityRow.id tbl (entityRowOf d1) (entityRowOf d2),
   fun tbl ds v => pass_rerun EntityRow.id entityRowOf tbl ds v,
   fun tbl d1 d2 _ _ => pass_two_records HfRow.id tbl (hfRowOf d1) (hfRowOf d2),
   fun tbl ds v => pass_rerun HfRow.id hfRowOf tbl ds v⟩

/-- Witness for C4 at concrete records: the site with id 42 imported
twice ends as one row with the second run's name. -/
theorem dimension_upsert_convergence_witness :
    selectBy SiteRow.id
      (importSitePass (importSitePass []
          [Fields.cons "id" (FVal.text "42") (Fields.cons "name" (FVal.text "Old") Fields.nil)])
        [Fields.cons "id" (FVal.text "42") (Fields.cons "name" (FVal.text "New") Fields.nil)])
      (getF (Fields.cons "id" (FVal.text "42")
          (Fields.cons "name" (FVal.text "New") Fields.nil)) "id") =
      [siteRowOf (Fields.cons "id" (FVal.text "42")
          (Fields.cons "name" (FVal.text "New") Fields.nil))] :=
  dimension_upsert_convergence.2.2.2.2.1 []
    (Fields.cons "id" (FVal.text "42") (Fields.cons "name" (FVal.text "Old") Fields.nil))
    (Fields.cons "id" (FVal.text "42") (Fields.cons "name" (FVal.text "New") Fields.nil))
    (by decide) (by decide)

/-! ## Pass 2 over sites: `import_site_plus` (build.py lines 288-309) -/

structure StructureRow where
  local_id : Option FVal
  site_id : Option FVal
  name : Option FVal
  name2 : Option FVal
  type : Option FVal
deriving DecidableEq

/-- The dict elements of a flattened list (`for x in xs: if
isinstance(x, dict): ...`). -/
def asNodeList : FList → List Fields
  | FList.nil => []
  | FList.cons (FVal.node f) r => f :: asNodeList r
  | FList.cons _ r => asNodeList r

/-- Normalization of a repeatable field to the list of its dict
occurrences: absent gives `[]` (the `.get(key, [])` default), a single
dict is wrapped (`if isinstance(x, dict): x = [x]`), a list keeps its
dict elements, and a string yields nothing (iterating a string gives
1-character strings, none of which is a dict). -/
def normOcc : Option FVal → List Fields
  | some (FVal.node f) => [f]
  | some (FVal.many vs) => asNodeList vs
  | _ => []

/-- `data.get(key, [])` then dict-normalization. -/
def dictOccs (d : Fields) (key : String) : List Fields := normOcc (getF d key)

/-- The structure dicts of a pass-2 site record:
`structures = data.get('structures', {})`, then (only when `structures`
is a dict) `struct_list = structures.get('structure', [])` with the same
normalization. -/
def structDicts (d : Fields) : List Fields :=
  match getF d "structures" with
  | some (FVal.node sd) => normOcc (getF sd "structure")
  | none => []
  | some _ => []

/-- One inserted structure row (lines 305-308). -/
def structRowOf (sid : Option FVal) (s : Fields) : StructureRow :=
  ⟨getF s "id", sid, getF s "name", getF s "name2", getF s "type"⟩

/-- `UPDATE sites SET civ_id = ?, cur_owner_id = ? WHERE id = ?` applied
to one stored row. -/
def updateSiteOwner (d : Fields) (r : SiteRow) : SiteRow :=
  if r.id = getF d "id" then
    { r with civ_id := getF d "civ_id", cur_owner_id := getF d "cur_owner_id" }
  else r

/-- `import_site_plus(data)` acting on the sites and structures tables:
skipped entirely unless the record's id is truthy; otherwise the
ownership columns of the matching site rows are updated and the record's
structure dicts are inserted with the site id as foreign key. -/
def importSitePlus (d : Fields) (st : List SiteRow × List StructureRow) :
    List SiteRow × List StructureRow :=
  if truthy (getF d "id") then
    (st.1.map (updateSiteOwner d),
     st.2 ++ (structDicts d).map (structRowOf (getF d "id")))
  else st

/-- The pass-2 site pass: `stream_elements(legends_plus_clean, 'site',
import_site_plus)`. -/
def importSitePlusPass (ds : List Fields) (st : List SiteRow × List StructureRow) :
    List SiteRow × List StructureRow :=
  ds.foldl (fun s d => importSitePlus d s) st

theorem updateSiteOwner_id (d : Fields) (r : SiteRow) :
    (updateSiteOwner d r).id = r.id := by
  rw [updateSiteOwner]
  split <;> rfl

/-- **C5.** For a site present in both passes (same id, truthy), pass 2
updates only the ownership columns of the pass-1 row: the unique row
with that id ends with the pass-1 identity fields and the pass-2 owner
fields; rows with other ids are untouched; and exactly the structure
dicts of the pass-2 record are appended to the structures table with the
site id as foreign key. -/
theorem site_two_pass_update (d1 d2 : Fields) (tbl : List SiteRow)
    (stbl : List StructureRow)
    (hid : getF d1 "id" = getF d2 "id") (ht : truthy (getF d2 "id") = true) :
    selectBy SiteRow.id
        (importSitePlus d2 (upsertBy SiteRow.id tbl (siteRowOf d1), stbl)).1
        (getF d2 "id") =
      [⟨getF d1 "id", getF d1 "name", getF d1 "type", getF d1 "coords",
        getF d1 "rectangle", getF d2 "civ_id", getF d2 "cur_owner_id"⟩] ∧
    (importSitePlus d2 (upsertBy SiteRow.id tbl (siteRowOf d1), stbl)).1.filter
        (fun r => !decide (r.id = getF d2 "id")) =
      (upsertBy SiteRow.id tbl (siteRowOf d1)).filter
        (fun r => !decide (r.id = getF d2 "id")) ∧
    (importSitePlus d2 (upsertBy SiteRow.id tbl (siteRowOf d1), stbl)).2 =
      stbl ++ (structDicts d2).map (structRowOf (getF d2 "id")) := by
  rw [importSitePlus, if_pos ht]
  refine ⟨?_, ?_, rfl⟩
  · rw [show selectBy SiteRow.id
          ((upsertBy SiteRow.id tbl (siteRowOf d1)).map (updateSiteOwner d2), stbl).1
          (getF d2 "id") =
        List.filter (fun x => decide (SiteRow.id x = getF d2 "id"))
          ((upsertBy SiteRow.id tbl (siteRowOf d1)).map (updateSiteOwner d2)) from rfl]
    rw [List.filter_map]
    rw [List.filter_congr (fun r _ => by
      show decide ((updateSiteOwner d2 r).id = getF d2 "id") =
        decide (SiteRow.id r = getF d2 "id")
      rw [updateSiteOwner_id])]
    rw [show List.filter (fun x => decide (SiteRow.id x = getF d2 "id"))
          (upsertBy SiteRow.id tbl (siteRowOf d1)) =
        selectBy SiteRow.id (upsertBy SiteRow.id tbl (siteRowOf d1)) (getF d2 "id") from rfl]
    rw [selectBy_upsertBy, if_pos (show SiteRow.id (siteRowOf d1) = getF d2 "id" from hid)]
    rw [List.map_cons, List.map_nil]
    rw [show updateSiteOwner d2 (siteRowOf d1) =
        ⟨getF d1 "id", getF d1 "name", getF d1 "type", getF d1 "coords",
         getF d1 "rectangle", getF d2 "civ_id", getF d2 "cur_owner_id"⟩ from by
      rw [updateSiteOwner, if_pos (show (siteRowOf d1).id = getF d2 "id" from hid)]
      rfl]
  · rw [show ((upsertBy SiteRow.id tbl (siteRowOf d1)).map (updateSiteOwner d2), stbl).1 =
        (upsertBy SiteRow.id tbl (siteRowOf d1)).map (updateSiteOwner d2) from rfl]
    rw [List.filter_map]
    rw [List.filter_congr (fun r _ => by
      show (!decide ((updateSiteOwner d2 r).id = getF d2 "id")) =
        (!decide (SiteRow.id r = getF d2 "id"))
      rw [updateSiteOwner_id])]
    apply List.map_congr_left ?_ |>.trans (List.map_id _)
    intro r hr
    have hrid : ¬r.id = getF d2 "id" := by
      have := List.of_mem_filter hr
      simpa using this
    show updateSiteOwner d2 r = r
    rw [updateSiteOwner, if_neg hrid]

/-- Witness for C5 at concrete records. -/
theorem site_two_pass_update_witness :
    selectBy SiteRow.id
        (importSitePlus
            (Fields.cons "id" (FVal.text "7") (Fields.cons "civ_id" (FVal.text "3") Fields.nil))
            (upsertBy SiteRow.id []
              (siteRowOf (Fields.cons "id" (FVal.text "7")
                (Fields.cons "name" (FVal.text "Boatmurdered") Fields.nil))), [])).1
        (getF (Fields.cons "id" (FVal.text "7")
            (Fields.cons "civ_id" (FVal.text "3") Fields.nil)) "id") =
      [⟨some (FVal.text "7"), some (FVal.text "Boatmurdered"), none, none, none,
        some (FVal.text "3"), none⟩] :=
  (site_two_pass_update
    (Fields.cons "id" (FVal.text "7") (Fields.cons "name" (FVal.text "Boatmurdered") Fields.nil))
    (Fields.cons "id" (FVal.text "7") (Fields.cons "civ_id" (FVal.text "3") Fields.nil))
    [] [] (by decide) (by decide)).1

/-- **C10.** A pass-2 site record whose id is absent or the empty string
performs no ownership update and inserts no structures: the record is
skipped entirely and the pass continues with the remaining records. -/
theorem site_plus_skips_blank_id (d : Fields) (st : List SiteRow × List StructureRow)
    (h : getF d "id" = none ∨ getF d "id" = some (FVal.text "")) :
    importSitePlus d st = st ∧
    ∀ ds : List Fields, importSitePlusPass (d :: ds) st = importSitePlusPass ds st := by
  have ht : truthy (getF d "id") = false := by
    rcases h with h | h <;> rw [h] <;> rfl
  have hskip : importSitePlus d st = st := by
    rw [importSitePlus, if_neg (by simp [ht])]
  refine ⟨hskip, fun ds => ?_⟩
  rw [importSitePlusPass, List.foldl_cons, hskip]
  rfl

/-- Witness for C10: a record with an empty-string id is skipped. -/
theorem site_plus_skips_blank_id_witness :
    importSitePlus (Fields.cons "id" (FVal.text "") Fields.nil)
        ([siteRowOf (Fields.cons "id" (FVal.text "7") Fields.nil)], []) =
      ([siteRowOf (Fields.cons "id" (FVal.text "7") Fields.nil)], []) :=
  (site_plus_skips_blank_id (Fields.cons "id" (FVal.text "") Fields.nil)
    ([siteRowOf (Fields.cons "id" (FVal.text "7") Fields.nil)], [])
    (Or.inr (by decide))).1

/-! ## Historical events: `import_event` (build.py lines 404-421) -/

/-- The recognized-field set `known_fields`. -/
def knownFields : List String :=
  ["id", "year", "type", "site_id", "site", "hfid", "civ_id", "civ",
   "state", "reason", "slayer_hfid", "slayer_hf", "death_cause",
   "artifact_id", "entity_id", "structure_id"]

/-- `extra = {k: v for k, v in data.items() if k not in known_fields}`
(dict comprehension preserves order). -/
def filterExtra : Fields → Fields
  | Fields.nil => Fields.nil
  | Fields.cons k v r =>
      if k ∈ knownFields then filterExtra r else Fields.cons k v (filterExtra r)

/-- `json.dumps(extra) if extra else None`: the serialized blob is
modelled as the mapping itself (the JSON round-trip is faithful on these
values), `none` when the residual mapping is empty. -/
def eventExtra (d : Fields) : Option Fields :=
  if filterExtra d = Fields.nil then none else some (filterExtra d)

structure EventRow where
  id : Option FVal
  year : Option FVal
  type : Option FVal
  site_id : Option FVal
  hfid : Option FVal
  civ_id : Option FVal
  state : Option FVal
  reason : Option FVal
  slayer_hfid : Option FVal
  death_cause : Option FVal
  artifact_id : Option FVal
  entity_id : Option FVal
  structure_id : Option FVal
  extra_data : Option Fields
deriving DecidableEq

/-- `import_event` (lines 407-420). -/
def eventRowOf (d : Fields) : EventRow :=
  ⟨getF d "id", getF d "year", getF d "type",
   pyOr (getF d "site_id") (getF d "site"), getF d "hfid",
   pyOr (getF d "civ_id") (getF d "civ"), getF d "state", getF d "reason",
   pyOr (getF d "slayer_hfid") (getF d "slayer_hf"), getF d "death_cause",
   getF d "artifact_id", getF d "entity_id", getF d "structure_id",
   eventExtra d⟩

theorem mem_filterExtra (k : String) (v : FVal) :
    ∀ d : Fields, ((k, v) ∈ (filterExtra d).toList ↔ (k, v) ∈ d.toList ∧ k ∉ knownFields)
  | Fields.nil => by simp [filterExtra, Fields.toList]
  | Fields.cons k2 v2 r => by
      by_cases hk : k2 ∈ knownFields
      · rw [show filterExtra (Fields.cons k2 v2 r) = filterExtra r from by
          rw [filterExtra, if_pos hk]]
        rw [mem_filterExtra k v r]
        simp only [Fields.toList, List.mem_cons, Prod.mk.injEq]
        constructor
        · rintro ⟨h1, h2⟩
          exact ⟨Or.inr h1, h2⟩
        · rintro ⟨⟨rfl, rfl⟩ | h1, h2⟩
          · exact absurd hk h2
          · exact ⟨h1, h2⟩
      · rw [show filterExtra (Fields.cons k2 v2 r) = Fields.cons k2 v2 (filterExtra r) from by
          rw [filterExtra, if_neg hk]]
        simp only [Fields.toList, List.mem_cons, Prod.mk.injEq, mem_filterExtra k v r]
        constructor
        · rintro (⟨rfl, rfl⟩ | ⟨h1, h2⟩)
          · exact ⟨Or.inl ⟨rfl, rfl⟩, hk⟩
          · exact ⟨Or.inr h1, h2⟩
        · rintro ⟨⟨rfl, rfl⟩ | h1, h2⟩
          · exact Or.inl ⟨rfl, rfl⟩
          · exact Or.inr ⟨h1, h2⟩

theorem filterExtra_nil :
    ∀ d : Fields, (filterExtra d = Fields.nil ↔ ∀ kv ∈ d.toList, kv.1 ∈ knownFields)
  | Fields.nil => by simp [filterExtra, Fields.toList]
  | Fields.cons k2 v2 r => by
      by_cases hk : k2 ∈ knownFields
      · rw [show filterExtra (Fields.cons k2 v2 r) = filterExtra r from by
          rw [filterExtra, if_pos hk]]
        rw [filterExtra_nil r]
        constructor
        · intro h kv hkv
          rw [Fields.toList, List.mem_cons] at hkv
          rcases hkv with rfl | hkv
          · exact hk
          · exact h kv hkv
        · intro h kv hkv
          exact h kv (by rw [Fields.toList]; exact List.mem_cons_of_mem _ hkv)
      · rw [show filterExtra (Fields.cons k2 v2 r) = Fields.cons k2 v2 (filterExtra r) from by
          rw [filterExtra, if_neg hk]]
        constructor
        · intro h
          exact absurd h (by simp)
        · intro h
          exact absurd (h (k2, v2) (by rw [Fields.toList]; exact List.mem_cons_self _ _)) hk

/-- **C6.** Every field of an event record whose key is not in the
recognized-field set is collected into the residual payload stored on
the event row (and nothing else is); the payload is `none` exactly when
the record has no unrecognized field. -/
theorem event_residual_payload (d : Fields) :
    (∀ k v, (k, v) ∈ d.toList → k ∉ knownFields →
       ∃ e, (eventRowOf d).extra_data = some e ∧ (k, v) ∈ e.toList) ∧
    (∀ e, (eventRowOf d).extra_data = some e →
       ∀ k v, (k, v) ∈ e.toList → (k, v) ∈ d.toList ∧ k ∉ knownFields) ∧
    ((eventRowOf d).extra_data = none ↔ ∀ kv ∈ d.toList, kv.1 ∈ knownFields) := by
  have hts : (eventRowOf d).extra_data = eventExtra d := rfl
  by_cases hfe : filterExtra d = Fields.nil
  · have he : (eventRowOf d).extra_data = none := by
      rw [hts]; unfold eventExtra; rw [if_pos hfe]
    refine ⟨?_, ?_, ?_⟩
    · intro k v hmem hk
      have h2 := (mem_filterExtra k v d).mpr ⟨hmem, hk⟩
      rw [hfe] at h2
      exact absurd h2 (by simp [Fields.toList])
    · intro e he2
      rw [he] at he2
      exact absurd he2 (by simp)
    · rw [he]
      exact ⟨fun _ => (filterExtra_nil d).mp hfe, fun _ => rfl⟩
  · have he : (eventRowOf d).extra_data = some (filterExtra d) := by
      rw [hts]; unfold eventExtra; rw [if_neg hfe]
    refine ⟨?_, ?_, ?_⟩
    · intro k v hmem hk
      exact ⟨filterExtra d, he, (mem_filterExtra k v d).mpr ⟨hmem, hk⟩⟩
    · intro e he2 k v hmem
      rw [he] at he2
      rw [← Option.some.inj he2] at hmem
      exact (mem_filterExtra k v d).mp hmem
    · constructor
      · intro h
        rw [he] at h
        exact absurd h (by simp)
      · intro h
        exact absurd ((filterExtra_nil d).mpr h) hfe

/-- Witness for C6: a record with the single unrecognized field
`custom_field` stores it in the decoded payload. -/
theorem event_residual_payload_witness :
    ∃ e, (eventRowOf (Fields.cons "custom_field" (FVal.text "value") Fields.nil)).extra_data =
        some e ∧ ("custom_field", FVal.text "value") ∈ e.toList :=
  (event_residual_payload (Fields.cons "custom_field" (FVal.text "value") Fields.nil)).1
    "custom_field" (FVal.text "value") (by simp [Fields.toList]) (by decide)

/-! ## Repeatable fields of the importers (claim C7)

`import_entity` (lines 317-347), `import_hf` (lines 355-387),
`import_content` (lines 428-458). -/

structure EntityPositionRow where
  entity_id : Option FVal
  position_id : Option FVal
  name : Option FVal
deriving DecidableEq

def entityPositionRowOf (eid : Option FVal) (p : Fields) : EntityPositionRow :=
  ⟨eid, getF p "id", getF p "name"⟩

structure EntityPositionAssignmentRow where
  entity_id : Option FVal
  position_id : Option FVal
  histfig_id : Option FVal
deriving DecidableEq

def entityAssignmentRowOf (eid : Option FVal) (a : Fields) : EntityPositionAssignmentRow :=
  ⟨eid, getF a "position_id", getF a "histfig"⟩

/-- `import_entity`: the entity row plus the position and assignment
rows of the record's repeatable children. -/
def importEntity (d : Fields) :
    EntityRow × List EntityPositionRow × List EntityPositionAssignmentRow :=
  (entityRowOf d,
   (dictOccs d "entity_position").map (entityPositionRowOf (getF d "id")),
   (dictOccs d "entity_position_assignment").map (entityAssignmentRowOf (getF d "id")))

structure HfEntityLinkRow where
  hfid : Option FVal
  entity_id : Option FVal
  link_type : Option FVal
  link_strength : Option FVal
deriving DecidableEq

def hfEntityLinkRowOf (hfid : Option FVal) (l : Fields) : HfEntityLinkRow :=
  ⟨hfid, getF l "entity_id", getF l "link_type", getF l "link_strength"⟩

structure HfSiteLinkRow where
  hfid : Option FVal
  site_id : Option FVal
  link_type : Option FVal
deriving DecidableEq

def hfSiteLinkRowOf (hfid : Option FVal) (l : Fields) : HfSiteLinkRow :=
  ⟨hfid, getF l "site_id", getF l "link_type"⟩

/-- `import_hf`: the historical-figure row plus its entity-link and
site-link rows. -/
def importHf (d : Fields) : HfRow × List HfEntityLinkRow × List HfSiteLinkRow :=
  (hfRowOf d,
   (dictOccs d "entity_link").map (hfEntityLinkRowOf (getF d "id")),
   (dictOccs d "site_link").map (hfSiteLinkRowOf (getF d "id")))

structure WrittenContentRow where
  id : Option FVal
  title : Option FVal
  type : Option FVal
  author_hfid : Option FVal
  page_start : Option FVal
  page_end : Option FVal
deriving DecidableEq

def writtenContentRowOf (d : Fields) : WrittenContentRow :=
  ⟨getF d "id", getF d "title", getF d "type", getF d "author",
   getF d "page_start", getF d "page_end"⟩

structure WrittenContentStyleRow where
  written_content_id : Option FVal
  style : FVal
deriving DecidableEq

structure WrittenContentReferenceRow where
  written_content_id : Option FVal
  ref_type : Option FVal
  ref_id : Option FVal
deriving DecidableEq

def referenceRowOf (cid : Option FVal) (r : Fields) : WrittenContentReferenceRow :=
  ⟨cid, getF r "type", getF r "id"⟩

/-- The values passed to the style INSERT:
`styles = data.get('style', [])`, `if isinstance(styles, str):
styles = [styles]`, then `for style in styles` — a string is wrapped, a
list is iterated as-is (every element inserted; there is no dict filter
here), and iterating a dict yields its keys. -/
def normStyle : Option FVal → List FVal
  | none => []
  | some (FVal.text s) => [FVal.text s]
  | some (FVal.many vs) => vs.toList
  | some (FVal.node f) => f.toList.map (fun kv => FVal.text kv.1)

def styleOccs (d : Fields) : List FVal := normStyle (getF d "style")

/-- `import_content`: the written-content row plus its style and
reference rows. -/
def importContent (d : Fields) :
    WrittenContentRow × List WrittenContentStyleRow × List WrittenContentReferenceRow :=
  (writtenContentRowOf d,
   (styleOccs d).map (fun s => ⟨getF d "id", s⟩),
   (dictOccs d "reference").map (referenceRowOf (getF d "id")))

def allTextIn : FList → Bool
  | FList.nil => true
  | FList.cons (FVal.text _) r => allTextIn r
  | FList.cons _ _ => false

theorem normOcc_promote : ∀ l : FList, noManyIn l = true → normOcc (promote l) = asNodeList l
  | FList.nil, _ => rfl
  | FList.cons v FList.nil, h => by
      cases v with
      | text s => rfl
      | node f => rfl
      | many vs => simp [noManyIn, notMany] at h
  | FList.cons _ (FList.cons _ _), _ => rfl

theorem normStyle_promote : ∀ l : FList, allTextIn l = true →
    normStyle (promote l) = FList.toList l
  | FList.nil, _ => rfl
  | FList.cons (FVal.text _) FList.nil, _ => rfl
  | FList.cons (FVal.node _) FList.nil, h => by simp [allTextIn] at h
  | FList.cons (FVal.many _) FList.nil, h => by simp [allTextIn] at h
  | FList.cons _ (FList.cons _ _), _ => rfl

/-- **C7.** Every repeatable field consumed by the importers
(`entity_position`, `entity_position_assignment`, `entity_link`,
`site_link`, `structure`, `reference`, `style`) is normalized to an
ordered list before iterating, so an element with one child and an
element with many children produce the same per-occurrence rows: the
rows are always the row function mapped over the per-occurrence list
`asNodeList (collect key children)` (for `style`, over the occurrence
list itself, when the occurrences are leaves). -/
theorem repeatable_field_normalization (n : String) (tx : Option String) (cs : XmlList)
    (key : String) :
    dictOccs (xmlToDict (Xml.elem n tx cs)) key = asNodeList (collect key cs) ∧
    (importEntity (xmlToDict (Xml.elem n tx cs))).2.1 =
      (asNodeList (collect "entity_position" cs)).map
        (entityPositionRowOf (lookupF "id" (xmlToDict (Xml.elem n tx cs)))) ∧
    (importEntity (xmlToDict (Xml.elem n tx cs))).2.2 =
      (asNodeList (collect "entity_position_assignment" cs)).map
        (entityAssignmentRowOf (lookupF "id" (xmlToDict (Xml.elem n tx cs)))) ∧
    (importHf (xmlToDict (Xml.elem n tx cs))).2.1 =
      (asNodeList (collect "entity_link" cs)).map
        (hfEntityLinkRowOf (lookupF "id" (xmlToDict (Xml.elem n tx cs)))) ∧
    (importHf (xmlToDict (Xml.elem n tx cs))).2.2 =
      (asNodeList (collect "site_link" cs)).map
        (hfSiteLinkRowOf (lookupF "id" (xmlToDict (Xml.elem n tx cs)))) ∧
    (importContent (xmlToDict (Xml.elem n tx cs))).2.2 =
      (asNodeList (collect "reference" cs)).map
        (referenceRowOf (lookupF "id" (xmlToDict (Xml.elem n tx cs)))) ∧
    (∀ (m : String) (tx2 : Option String) (ss : XmlList),
      structDicts (Fields.cons "structures"
          (FVal.node (xmlToDict (Xml.elem m tx2 ss))) Fields.nil) =
        asNodeList (collect "structure" ss)) ∧
    (allTextIn (collect "style" cs) = true →
      styleOccs (xmlToDict (Xml.elem n tx cs)) = (collect "style" cs).toList) := by
  have hkey : ∀ k : String, dictOccs (xmlToDict (Xml.elem n tx cs)) k =
      asNodeList (collect k cs) := by
    intro k
    show normOcc (lookupF k (xmlToDict (Xml.elem n tx cs))) = _
    rw [lookup_xmlToDict]
    exact normOcc_promote _ (collect_noMany k cs)
  refine ⟨hkey key, ?_, ?_, ?_, ?_, ?_, ?_, ?_⟩
  · show (dictOccs (xmlToDict (Xml.elem n tx cs)) "entity_position").map _ = _
    rw [hkey "entity_position"]
    rfl
  · show (dictOccs (xmlToDict (Xml.elem n tx cs)) "entity_position_assignment").map _ = _
    rw [hkey "entity_position_assignment"]
    rfl
  · show (dictOccs (xmlToDict (Xml.elem n tx cs)) "entity_link").map _ = _
    rw [hkey "entity_link"]
    rfl
  · show (dictOccs (xmlToDict (Xml.elem n tx cs)) "site_link").map _ = _
    rw [hkey "site_link"]
    rfl
  · show (dictOccs (xmlToDict (Xml.elem n tx cs)) "reference").map _ = _
    rw [hkey "reference"]
    rfl
  · intro m tx2 ss
    rw [show structDicts (Fields.cons "structures"
          (FVal.node (xmlToDict (Xml.elem m tx2 ss))) Fields.nil) =
        normOcc (lookupF "structure" (xmlToDict (Xml.elem m tx2 ss))) from rfl]
    rw [lookup_xmlToDict]
    exact normOcc_promote _ (collect_noMany "structure" ss)
  · intro hst
    show normStyle (lookupF "style" (xmlToDict (Xml.elem n tx cs))) = _
    rw [lookup_xmlToDict]
    exact normStyle_promote _ hst

/-- Witness for C7: a written-content element with two leaf `style`
children yields exactly those two style values in order. -/
theorem repeatable_field_normalization_witness :
    styleOccs (xmlToDict (Xml.elem "written_content" none
        (XmlList.cons (Xml.elem "style" (some "prose") XmlList.nil)
          (XmlList.cons (Xml.elem "style" (some "poem") XmlList.nil) XmlList.nil)))) =
      (collect "style"
        (XmlList.cons (Xml.elem "style" (some "prose") XmlList.nil)
          (XmlList.cons (Xml.elem "style" (some "poem") XmlList.nil) XmlList.nil))).toList :=
  (repeatable_field_normalization "written_content" none
    (XmlList.cons (Xml.elem "style" (some "prose") XmlList.nil)
      (XmlList.cons (Xml.elem "style" (some "poem") XmlList.nil) XmlList.nil))
    "style").2.2.2.2.2.2.2 (by decide)

/-! ## Orchestration: `find_xml_files` and `run_import`
(build.py lines 26-37, 175-472) -/

/-- Substring test (`"legends_plus" in name`). -/
def containsSub : List Char → List Char → Bool
  | pat, [] => startsWithChars pat []
  | pat, c :: rest => startsWithChars pat (c :: rest) || containsSub pat rest

/-- `find_xml_files`: scan the `*.xml` names in directory order; a name
containing `legends_plus` (lowercased) sets the plus file, otherwise a
name containing `legends` sets the base file; later hits overwrite
earlier ones.  Returns `(LEGENDS_FILE, LEGENDS_PLUS_FILE)`. -/
def findXmlFiles (names : List String) : Option String × Option String :=
  names.foldl (fun acc f =>
    let nm := f.toList.map Char.toLower
    if containsSub "legends_plus".toList nm then (acc.1, some f)
    else if containsSub "legends".toList nm then (some f, acc.2)
    else acc) (none, none)

/-- Observable events of a `run_import` run: temp-file creation and
deletion, and database writes (schema init / clear / per-pass commits,
numbered in program order). -/
inductive Ev where
  | createTemp : Nat → Ev
  | deleteTemp : Nat → Ev
  | dbWrite : Nat → Ev
deriving DecidableEq

/-- The database passes of `run_import` in program order: schema
init + clear, world, regions, underground regions, sites, artifacts,
landmasses, mountain peaks, site update + structures, entities,
historical figures, relationships, events, written content. -/
def numPasses : Nat := 14

/-- The body of the `try:` block, run under an error oracle: `failAt k`
means the k-th database step raises (parse or write error); the trace
records the db steps that completed before the failure.  Returns the
trace and whether the body succeeded. -/
def bodyTrace (failAt : Option Nat) : List Ev × Bool :=
  match failAt with
  | none => ((List.range numPasses).map Ev.dbWrite, true)
  | some k => ((List.range (min k numPasses)).map Ev.dbWrite, decide (numPasses ≤ k))

/-- `run_import` as an event trace: missing input files abort before
anything is created or written; otherwise both inputs are sanitized into
temp files 1 and 2, the body runs inside `try:`, and the `finally:`
block deletes both temp files whatever the body did.  The second
component is the run's success. -/
def runImport (names : List String) (failAt : Option Nat) : List Ev × Bool :=
  match findXmlFiles names with
  | (some _, some _) =>
      let body := bodyTrace failAt
      ([Ev.createTemp 1, Ev.createTemp 2] ++ body.1 ++ [Ev.deleteTemp 1, Ev.deleteTemp 2],
       body.2)
  | _ => ([], false)

/-- Temp files still on disk after a trace. -/
def liveTemps (tr : List Ev) : List Nat :=
  tr.foldl (fun acc e =>
    match e with
    | Ev.createTemp n => acc ++ [n]
    | Ev.deleteTemp n => acc.filter (fun m => !(m == n))
    | Ev.dbWrite _ => acc) []

/-- Database writes of a trace. -/
def dbWrites (tr : List Ev) : List Nat :=
  tr.foldr (fun e acc =>
    match e with
    | Ev.dbWrite n => n :: acc
    | _ => acc) []

theorem liveTemps_go_dbWrites (l : List Nat) :
    ∀ acc : List Nat, (l.map Ev.dbWrite).foldl (fun acc e =>
      match e with
      | Ev.createTemp n => acc ++ [n]
      | Ev.deleteTemp n => acc.filter (fun m => !(m == n))
      | Ev.dbWrite _ => acc) acc = acc := by
  induction l with
  | nil => intro acc; rfl
  | cons x xs ih => intro acc; exact ih acc

theorem createTemp_not_mem_dbWrites (n : Nat) (l : List Nat) :
    Ev.createTemp n ∉ l.map Ev.dbWrite := by
  intro h
  rcases List.mem_map.mp h with ⟨m, _, hm⟩
  exact Ev.noConfusion hm

/-- **C8.** On every run of the import entry point — for every input
directory and every error oracle — no sanitized temp file survives the
run: whenever the temp files are created, the `finally:` block deletes
both, on success and on every failure path inside the import body. -/
theorem temp_files_always_deleted (names : List String) (failAt : Option Nat) :
    liveTemps (runImport names failAt).1 = [] ∧
    (∀ n, Ev.createTemp n ∈ (runImport names failAt).1 →
      Ev.deleteTemp n ∈ (runImport names failAt).1) := by
  rw [runImport]
  cases hf : findXmlFiles names with
  | mk a b =>
      cases a with
      | none => exact ⟨rfl, by intro n h; simp at h⟩
      | some fa =>
          cases b with
          | none => exact ⟨rfl, by intro n h; simp at h⟩
          | some fb =>
              constructor
              · cases failAt with
                | none =>
                    show liveTemps ([Ev.createTemp 1, Ev.createTemp 2] ++
                      (List.range numPasses).map Ev.dbWrite ++
                      [Ev.deleteTemp 1, Ev.deleteTemp 2]) = []
                    rw [liveTemps, List.foldl_append, List.foldl_append,
                      liveTemps_go_dbWrites]
                    rfl
                | some k =>
                    show liveTemps ([Ev.createTemp 1, Ev.createTemp 2] ++
                      (List.range (min k numPasses)).map Ev.dbWrite ++
                      [Ev.deleteTemp 1, Ev.deleteTemp 2]) = []
                    rw [liveTemps, List.foldl_append, List.foldl_append,
                      liveTemps_go_dbWrites]
                    rfl
              · have hd1 : Ev.deleteTemp 1 ∈ ([Ev.createTemp 1, Ev.createTemp 2] ++
                    (bodyTrace failAt).1 ++ [Ev.deleteTemp 1, Ev.deleteTemp 2]) := by simp
                have hd2 : Ev.deleteTemp 2 ∈ ([Ev.createTemp 1, Ev.createTemp 2] ++
                    (bodyTrace failAt).1 ++ [Ev.deleteTemp 1, Ev.deleteTemp 2]) := by simp
                have hcr : ∀ n, Ev.createTemp n ∈ ([Ev.createTemp 1, Ev.createTemp 2] ++
                    (bodyTrace failAt).1 ++ [Ev.deleteTemp 1, Ev.deleteTemp 2]) →
                    n = 1 ∨ n = 2 := by
                  intro n hn
                  rcases List.mem_append.mp hn with hn | hn
                  · rcases List.mem_append.mp hn with hn | hn
                    · rcases List.mem_cons.mp hn with hn | hn
                      · injection hn with h
                        exact Or.inl h
                      · rcases List.mem_cons.mp hn with hn | hn
                        · injection hn with h
                          exact Or.inr h
                        · exact absurd hn (List.not_mem_nil _)
                    · cases failAt with
                      | none => exact absurd hn (createTemp_not_mem_dbWrites n _)
                      | some k => exact absurd hn (createTemp_not_mem_dbWrites n _)
                  · rcases List.mem_cons.mp hn with hn | hn
                    · exact absurd hn (by simp)
                    · rcases List.mem_cons.mp hn with hn | hn
                      · exact absurd hn (by simp)
                      · exact absurd hn (List.not_mem_nil _)
                intro n hn
                rcases hcr n hn with rfl | rfl
                · exact hd1
                · exact hd2

/-- **C9.** When either required source file is not found by the
filename-substring search, the import aborts before any database
mutation: the run fails with an empty trace — no temp files, no schema
initialization, no writes of any pass. -/
theorem missing_input_aborts (names : List String) (failAt : Option Nat)
    (h : (findXmlFiles names).1 = none ∨ (findXmlFiles names).2 = none) :
    runImport names failAt = ([], false) ∧ dbWrites (runImport names failAt).1 = [] := by
  have hr : runImport names failAt = ([], false) := by
    rw [runImport]
    cases hf : findXmlFiles names with
    | mk a b =>
        rw [hf] at h
        cases a with
        | none => rfl
        | some fa =>
            cases b with
            | none => rfl
            | some fb => rcases h with h | h <;> exact absurd h (by simp)
  exact ⟨hr, by rw [hr]; rfl⟩

/-- Witness for C9: a directory holding only a base-legends file (the
plus file is missing) yields a failed run with no database writes. -/
theorem missing_input_aborts_witness :
    runImport ["region1-legends.xml"] none = ([], false) ∧
    dbWrites (runImport ["region1-legends.xml"] none).1 = [] :=
  missing_input_aborts ["region1-legends.xml"] none (by decide)

/-- Witness for C8: a run that fails at database step 3 still ends with
no live temp files, and the deletion of temp file 1 is in the trace. -/
theorem temp_files_always_deleted_witness :
    liveTemps (runImport ["world-legends.xml", "world-legends_plus.xml"] (some 3)).1 = [] ∧
    Ev.deleteTemp 1 ∈ (runImport ["world-legends.xml", "world-legends_plus.xml"] (some 3)).1 :=
  ⟨(temp_files_always_deleted ["world-legends.xml", "world-legends_plus.xml"] (some 3)).1,
   (temp_files_always_deleted ["world-legends.xml", "world-legends_plus.xml"] (some 3)).2 1
     (by decide)⟩
